import Mathlib

/-!
Shallow embedding of `src/alpha-token/holding-incentive.py` (the Reward
Allocator of the subnet-token-economics repository).

Modelling conventions:
* Python `Decimal` (arbitrary-precision decimal) is modelled as `ℚ`:
  additions and multiplications of `Decimal` are exact, and the only
  divisions performed by the program are rounded to 28 significant digits,
  far below every epsilon the spec mentions.
* Python `date` values are modelled as integers counting days; `timedelta`
  addition and `date` subtraction (`.days`) become integer `+` / `-`.
* The Python `dict` of participants (insertion ordered, replace-on-add)
  is modelled as an association list `List (String × ParticipantPosition)`
  with `dictInsert` replacing in place and otherwise appending.
* Methods that do not assign to `self` are translated as functions that
  return their result together with the (unchanged) calculator state,
  making the absence of mutation a provable statement.
-/

namespace SubnetTokenEconomics

/-- `ParticipantPosition` dataclass: a plain record, no validation of any
field happens at construction (Python `@dataclass` generates a bare
field-assigning constructor). -/
structure ParticipantPosition where
  hotkey : String
  evm_address : String
  alpha_staked : ℚ
  masa_staked : ℚ
  masa_stake_months : ℤ
  join_date : ℤ
deriving DecidableEq, Repr

/-- `RewardCalculator.TOTAL_REWARD_POOL = Decimal('15000000')`. -/
def TOTAL_REWARD_POOL : ℚ := 15000000

/-- `RewardCalculator.MAX_ALPHA_STAKE_DAYS = 120`. -/
def MAX_ALPHA_STAKE_DAYS : ℤ := 120

/-- `RewardCalculator.MIN_MASA_STAKE_DAYS = 90` (declared, never used in
eligibility filtering). -/
def MIN_MASA_STAKE_DAYS : ℤ := 90

/-- `RewardCalculator.VALID_MASA_STAKE_MONTHS = [3, 6, 9, 12]`. -/
def VALID_MASA_STAKE_MONTHS : List ℤ := [3, 6, 9, 12]

/-- The mutable state of a `RewardCalculator` instance: the fields set in
`__init__` (`self.participants`, `self.launch_date`,
`self.program_end_date`). -/
structure RewardCalculator where
  participants : List (String × ParticipantPosition)
  launch_date : ℤ
  program_end_date : ℤ
deriving DecidableEq, Repr

/-- `RewardCalculator._calculate_end_date`: launch date + 120 days. -/
def calculate_end_date (launch_date : ℤ) : ℤ :=
  launch_date + MAX_ALPHA_STAKE_DAYS

/-- `RewardCalculator.__init__(launch_date)`: empty participant dict,
program end date derived from launch date. -/
def mkRewardCalculator (launch_date : ℤ) : RewardCalculator :=
  { participants := []
    launch_date := launch_date
    program_end_date := calculate_end_date launch_date }

/-- `RewardCalculator.get_masa_stake_multiplier`: the dict
`{3: 1.0, 6: 1.2, 9: 1.5, 12: 1.5}` with `.get(months, Decimal('0'))`. -/
def get_masa_stake_multiplier (months : ℤ) : ℚ :=
  if months = 3 then 1.0
  else if months = 6 then 1.2
  else if months = 9 then 1.5
  else if months = 12 then 1.5
  else 0

/-- Python-dict insertion (`d[k] = v`): replaces the value in place when
the key is present, otherwise appends at the end (insertion order). -/
def dictInsert (d : List (String × ParticipantPosition)) (k : String)
    (v : ParticipantPosition) : List (String × ParticipantPosition) :=
  match d with
  | [] => [(k, v)]
  | (k', v') :: rest =>
      if k' = k then (k, v) :: rest else (k', v') :: dictInsert rest k v

/-- Python-dict lookup (`d[k]` / `d.get(k)`). -/
def dictGet (d : List (String × ParticipantPosition)) (k : String) :
    Option ParticipantPosition :=
  match d with
  | [] => none
  | (k', v') :: rest => if k' = k then some v' else dictGet rest k

/-- `RewardCalculator.add_participant`:
`self.participants[position.hotkey] = position`. -/
def add_participant (c : RewardCalculator) (p : ParticipantPosition) :
    RewardCalculator :=
  { c with participants := dictInsert c.participants p.hotkey p }

/-- The dict returned by `calculate_individual_weights` in the eligible
case (always non-empty, hence always truthy in the caller's
`if weights:`). -/
structure Weights where
  total_weight : ℚ
  alpha_weight : ℚ
  masa_weight : ℚ
  alpha_time_multiplier : ℚ
  masa_multiplier : ℚ
  days_since_launch : ℤ
deriving DecidableEq, Repr

/-- `RewardCalculator.calculate_individual_weights`: `None` when the join
date falls outside `[launch_date, program_end_date]` or the stake months
are not in `VALID_MASA_STAKE_MONTHS`; otherwise the weight record, with
`alpha_time_multiplier = 1.0 - days_since_launch / 120 * 0.75`. -/
def calculate_individual_weights (c : RewardCalculator)
    (p : ParticipantPosition) : Option Weights :=
  if p.join_date < c.launch_date ∨ p.join_date > c.program_end_date then
    none
  else if p.masa_stake_months ∉ VALID_MASA_STAKE_MONTHS then
    none
  else
    let days_since_launch : ℤ := p.join_date - c.launch_date
    let alpha_time_multiplier : ℚ :=
      1.0 - ((days_since_launch : ℚ) / (MAX_ALPHA_STAKE_DAYS : ℚ) * 0.75)
    let alpha_weight := p.alpha_staked * alpha_time_multiplier
    let masa_weight :=
      p.masa_staked * get_masa_stake_multiplier p.masa_stake_months
    some { total_weight := alpha_weight + masa_weight
           alpha_weight := alpha_weight
           masa_weight := masa_weight
           alpha_time_multiplier := alpha_time_multiplier
           masa_multiplier := get_masa_stake_multiplier p.masa_stake_months
           days_since_launch := days_since_launch }

/-- One entry of the list returned by `calculate_all_rewards`. -/
structure RewardResult where
  hotkey : String
  position : ParticipantPosition
  total_weight : ℚ
  alpha_weight : ℚ
  masa_weight : ℚ
  alpha_time_multiplier : ℚ
  masa_multiplier : ℚ
  days_since_launch : ℤ
  share_of_pool : ℚ
  estimated_masa_reward : ℚ
deriving DecidableEq, Repr

/-- Body of the first pass of `calculate_all_rewards` over an arbitrary
list of dict entries: collect `(hotkey, position, weights)` for each
position whose `calculate_individual_weights` is truthy (the returned
dict is always non-empty, so truthiness coincides with `isSome`). -/
def pass_weights (c : RewardCalculator)
    (l : List (String × ParticipantPosition)) :
    List (String × ParticipantPosition × Weights) :=
  l.filterMap fun q =>
    (calculate_individual_weights c q.2).map fun w => (q.1, q.2, w)

/-- First pass of `calculate_all_rewards`: the `participant_weights`
list, built from the stored participants dict. -/
def participant_weights (c : RewardCalculator) :
    List (String × ParticipantPosition × Weights) :=
  pass_weights c c.participants

/-- Sum of the `total_weight` entries collected by the first pass over an
arbitrary list of dict entries. -/
def pool_weight_of (c : RewardCalculator)
    (l : List (String × ParticipantPosition)) : ℚ :=
  ((pass_weights c l).map fun t => t.2.2.total_weight).sum

/-- The `total_pool_weight` accumulated during the first pass. -/
def total_pool_weight (c : RewardCalculator) : ℚ :=
  pool_weight_of c c.participants

/-- Body of the second pass of `calculate_all_rewards` for one entry:
share and reward are computed behind the `total_pool_weight > 0` guard,
both `Decimal('0')` otherwise. -/
def mkRewardResult (tpw : ℚ) (t : String × ParticipantPosition × Weights) :
    RewardResult :=
  let share_of_pool : ℚ := if tpw > 0 then t.2.2.total_weight / tpw else 0
  let masa_reward : ℚ :=
    if tpw > 0 then TOTAL_REWARD_POOL * (t.2.2.total_weight / tpw) else 0
  { hotkey := t.1
    position := t.2.1
    total_weight := t.2.2.total_weight
    alpha_weight := t.2.2.alpha_weight
    masa_weight := t.2.2.masa_weight
    alpha_time_multiplier := t.2.2.alpha_time_multiplier
    masa_multiplier := t.2.2.masa_multiplier
    days_since_launch := t.2.2.days_since_launch
    share_of_pool := share_of_pool
    estimated_masa_reward := masa_reward }

/-- `RewardCalculator.calculate_all_rewards`: two passes over the
participants dict; returns the results list together with the calculator
state after the call (the method assigns only to locals, never to
`self`). -/
def calculate_all_rewards (c : RewardCalculator) :
    List RewardResult × RewardCalculator :=
  ((participant_weights c).map (mkRewardResult (total_pool_weight c)), c)

/-! ### Helper lemmas about the embedded operations -/

lemma ciw_congr (c c' : RewardCalculator) (q : ParticipantPosition)
    (h1 : c'.launch_date = c.launch_date)
    (h2 : c'.program_end_date = c.program_end_date) :
    calculate_individual_weights c' q = calculate_individual_weights c q := by
  unfold calculate_individual_weights
  rw [h1, h2]

lemma pass_weights_congr (c c' : RewardCalculator)
    (l : List (String × ParticipantPosition))
    (h1 : c'.launch_date = c.launch_date)
    (h2 : c'.program_end_date = c.program_end_date) :
    pass_weights c' l = pass_weights c l := by
  unfold pass_weights
  induction l with
  | nil => rfl
  | cons x xs ih => simp only [List.filterMap_cons, ciw_congr c c' x.2 h1 h2, ih]

lemma ciw_isSome_iff (c : RewardCalculator) (p : ParticipantPosition) :
    (calculate_individual_weights c p).isSome ↔
      (c.launch_date ≤ p.join_date ∧ p.join_date ≤ c.program_end_date ∧
       p.masa_stake_months ∈ VALID_MASA_STAKE_MONTHS) := by
  unfold calculate_individual_weights
  by_cases h1 : p.join_date < c.launch_date ∨ p.join_date > c.program_end_date
  · rw [if_pos h1]
    simp only [Option.isSome_none, Bool.false_eq_true, false_iff]
    intro hc
    obtain ⟨ha, hb, -⟩ := hc
    rcases h1 with h | h <;> omega
  · by_cases h2 : p.masa_stake_months ∈ VALID_MASA_STAKE_MONTHS
    · rw [if_neg h1, if_neg (not_not_intro h2)]
      simp only [Option.isSome_some, true_iff]
      exact ⟨by omega, by omega, h2⟩
    · rw [if_neg h1, if_pos h2]
      simp only [Option.isSome_none, Bool.false_eq_true, false_iff]
      intro hc
      exact h2 hc.2.2

lemma ciw_dest (c : RewardCalculator) (p : ParticipantPosition) (w : Weights)
    (h : calculate_individual_weights c p = some w) :
    w.alpha_time_multiplier =
      1 - ((p.join_date - c.launch_date : ℤ) : ℚ) / 120 * 0.75 ∧
    w.masa_multiplier = get_masa_stake_multiplier p.masa_stake_months ∧
    w.alpha_weight = p.alpha_staked * w.alpha_time_multiplier ∧
    w.masa_weight = p.masa_staked * w.masa_multiplier ∧
    w.total_weight = w.alpha_weight + w.masa_weight ∧
    w.days_since_launch = p.join_date - c.launch_date ∧
    c.launch_date ≤ p.join_date ∧ p.join_date ≤ c.program_end_date ∧
    p.masa_stake_months ∈ VALID_MASA_STAKE_MONTHS := by
  unfold calculate_individual_weights at h
  split_ifs at h with h1 h2
  all_goals simp only [Option.some.injEq] at h
  all_goals subst h
  all_goals
    have hmem : p.masa_stake_months ∈ VALID_MASA_STAKE_MONTHS := by tauto
  all_goals refine ⟨?_, rfl, rfl, rfl, rfl, rfl, by omega, by omega, hmem⟩
  all_goals norm_num [MAX_ALPHA_STAKE_DAYS]

lemma masa_multiplier_nonneg (m : ℤ) : 0 ≤ get_masa_stake_multiplier m := by
  unfold get_masa_stake_multiplier
  split_ifs <;> norm_num

lemma masa_multiplier_pos (m : ℤ) (hm : m ∈ VALID_MASA_STAKE_MONTHS) :
    0 < get_masa_stake_multiplier m := by
  simp only [VALID_MASA_STAKE_MONTHS, List.mem_cons, List.mem_singleton,
    List.not_mem_nil, or_false] at hm
  rcases hm with rfl | rfl | rfl | rfl <;> norm_num [get_masa_stake_multiplier]

lemma alpha_time_multiplier_pos (c : RewardCalculator) (p : ParticipantPosition)
    (w : Weights) (h : calculate_individual_weights c p = some w)
    (hwin : c.program_end_date ≤ c.launch_date + MAX_ALPHA_STAKE_DAYS) :
    0 < w.alpha_time_multiplier := by
  obtain ⟨hatm, -, -, -, -, -, hj1, hj2, -⟩ := ciw_dest c p w h
  rw [hatm]
  have hd : (0 : ℚ) ≤ ((p.join_date - c.launch_date : ℤ) : ℚ) := by
    exact_mod_cast Int.sub_nonneg.mpr hj1
  have hd120 : ((p.join_date - c.launch_date : ℤ) : ℚ) ≤ 120 := by
    have : p.join_date - c.launch_date ≤ 120 := by
      simp only [MAX_ALPHA_STAKE_DAYS] at hwin
      omega
    exact_mod_cast this
  nlinarith

lemma total_weight_nonneg (c : RewardCalculator) (p : ParticipantPosition)
    (w : Weights) (h : calculate_individual_weights c p = some w)
    (hwin : c.program_end_date ≤ c.launch_date + MAX_ALPHA_STAKE_DAYS)
    (ha : 0 ≤ p.alpha_staked) (hm : 0 ≤ p.masa_staked) :
    0 ≤ w.total_weight := by
  obtain ⟨hatm, hmm, haw, hmw, htw, -, -, -, -⟩ := ciw_dest c p w h
  have h1 : 0 < w.alpha_time_multiplier :=
    alpha_time_multiplier_pos c p w h hwin
  rw [htw, haw, hmw, hmm]
  have := masa_multiplier_nonneg p.masa_stake_months
  positivity

/-! ### Claims -/

/-- C5: `get_masa_stake_multiplier` is a pure lookup returning exactly
1.0 for 3 months, 1.2 for 6, 1.5 for 9 and 1.5 for 12, and 0 for every
other integer month value. -/
theorem C5_masa_multiplier_table :
    (get_masa_stake_multiplier 3 = 1.0 ∧ get_masa_stake_multiplier 6 = 1.2 ∧
     get_masa_stake_multiplier 9 = 1.5 ∧ get_masa_stake_multiplier 12 = 1.5) ∧
    ∀ m : ℤ, m ∉ VALID_MASA_STAKE_MONTHS → get_masa_stake_multiplier m = 0 := by
  refine ⟨⟨rfl, rfl, rfl, rfl⟩, ?_⟩
  intro m hm
  simp only [VALID_MASA_STAKE_MONTHS, List.mem_cons, List.mem_singleton,
    List.not_mem_nil, or_false, not_or] at hm
  obtain ⟨h3, h6, h9, h12⟩ := hm
  simp [get_masa_stake_multiplier, h3, h6, h9, h12]

/-- C5 witness: the multiplier at the concrete out-of-table month 4 is 0. -/
theorem C5_masa_multiplier_table_witness :
    (4 : ℤ) ∉ VALID_MASA_STAKE_MONTHS ∧ get_masa_stake_multiplier 4 = 0 :=
  ⟨by decide, C5_masa_multiplier_table.2 4 (by decide)⟩

/-- C6: with an empty participant set, or when no stored position is
eligible, `calculate_all_rewards` returns the empty list (the embedding is
a total function, so no exception is possible, and the division sits
behind the `total_pool_weight > 0` guard of `mkRewardResult`). -/
theorem C6_empty_and_ineligible_cases (c : RewardCalculator) :
    (c.participants = [] → (calculate_all_rewards c).1 = []) ∧
    ((∀ q ∈ c.participants, calculate_individual_weights c q.2 = none) →
      (calculate_all_rewards c).1 = []) := by
  constructor
  · intro h
    simp [calculate_all_rewards, participant_weights, pass_weights, h]
  · intro h
    have hpw : participant_weights c = [] := by
      unfold participant_weights pass_weights
      rw [List.filterMap_eq_nil_iff]
      intro q hq
      simp [h q hq]
    simp [calculate_all_rewards, hpw]

/-- C6 witness: a calculator holding one position with the invalid stake
duration 4 months, and the freshly constructed empty calculator, both
produce the empty result list. -/
theorem C6_empty_and_ineligible_cases_witness :
    calculate_individual_weights
      ⟨[("Q", ⟨"Q", "0xQ", 1, 1, 4, 0⟩)], 0, 120⟩ ⟨"Q", "0xQ", 1, 1, 4, 0⟩ = none ∧
    (calculate_all_rewards ⟨[("Q", ⟨"Q", "0xQ", 1, 1, 4, 0⟩)], 0, 120⟩).1 = [] ∧
    (calculate_all_rewards (mkRewardCalculator 0)).1 = [] := by
  refine ⟨by decide, ?_, (C6_empty_and_ineligible_cases (mkRewardCalculator 0)).1 rfl⟩
  refine (C6_empty_and_ineligible_cases _).2 ?_
  intro q hq
  simp only [List.mem_singleton] at hq
  subst hq
  decide

lemma dictGet_dictInsert (d : List (String × ParticipantPosition))
    (k : String) (v : ParticipantPosition) :
    dictGet (dictInsert d k v) k = some v := by
  induction d with
  | nil => simp [dictInsert, dictGet]
  | cons x rest ih =>
      obtain ⟨k', v'⟩ := x
      by_cases h : k' = k
      · simp [dictInsert, h, dictGet]
      · simp [dictInsert, h, dictGet, ih]

/-- C7 counterexample: the `ParticipantPosition` dataclass performs no
validation, so a position with the negative staked amount `-5` is
constructed without any error, `add_participant` stores it, and
`calculate_all_rewards` even includes it in its output with a negative
alpha weight — refuting the claim that such a construction fails fast
with a validation error before the position enters the allocator. -/
theorem C7_counterexample :
    (ParticipantPosition.mk "N" "0xN" (-5) 0 3 0).alpha_staked < 0 ∧
    (add_participant (mkRewardCalculator 0)
        (ParticipantPosition.mk "N" "0xN" (-5) 0 3 0)).participants =
      [("N", ParticipantPosition.mk "N" "0xN" (-5) 0 3 0)] ∧
    ((calculate_all_rewards (add_participant (mkRewardCalculator 0)
        (ParticipantPosition.mk "N" "0xN" (-5) 0 3 0))).1.map
      RewardResult.hotkey) = ["N"] ∧
    ((calculate_all_rewards (add_participant (mkRewardCalculator 0)
        (ParticipantPosition.mk "N" "0xN" (-5) 0 3 0))).1.map
      RewardResult.alpha_weight) = [-5] := by
  refine ⟨by norm_num, rfl, ?_, ?_⟩
  · simp [calculate_all_rewards, participant_weights, pass_weights,
      total_pool_weight, pool_weight_of, mkRewardResult,
      calculate_individual_weights, add_participant, dictInsert,
      mkRewardCalculator, calculate_end_date, get_masa_stake_multiplier,
      VALID_MASA_STAKE_MONTHS, MAX_ALPHA_STAKE_DAYS]
  · simp [calculate_all_rewards, participant_weights, pass_weights,
      total_pool_weight, pool_weight_of, mkRewardResult,
      calculate_individual_weights, add_participant, dictInsert,
      mkRewardCalculator, calculate_end_date, get_masa_stake_multiplier,
      VALID_MASA_STAKE_MONTHS, MAX_ALPHA_STAKE_DAYS]
    norm_num

/-- C7 amended: construction of a position value never fails and is not
validated; `add_participant` stores any position — including one with a
negative staked amount — unchanged under its hotkey, and modifies nothing
else of the calculator. (Only a malformed decimal string would fail, at
`Decimal(...)` parsing time, before this module is involved.) -/
theorem C7_no_validation_on_construction (c : RewardCalculator)
    (p : ParticipantPosition) :
    dictGet (add_participant c p).participants p.hotkey = some p ∧
    (add_participant c p).launch_date = c.launch_date ∧
    (add_participant c p).program_end_date = c.program_end_date :=
  ⟨dictGet_dictInsert c.participants p.hotkey p, rfl, rfl⟩

/-- C8: calling `calculate_all_rewards` twice in succession, the second
call running on the state left behind by the first, yields the same
result list (and the same state) as the first call. -/
theorem C8_idempotent (c : RewardCalculator) :
    (calculate_all_rewards (calculate_all_rewards c).2).1 =
      (calculate_all_rewards c).1 ∧
    (calculate_all_rewards (calculate_all_rewards c).2).2 =
      (calculate_all_rewards c).2 :=
  ⟨rfl, rfl⟩

/-- C9: the division by `total_pool_weight` sits behind the
`total_pool_weight > 0` guard; when the total pool weight is exactly 0,
every eligible position still appears in the output (same hotkeys, in
order, as the first pass collected) with `share_of_pool = 0` and
`estimated_masa_reward = 0`. -/
theorem C9_zero_pool_weight (c : RewardCalculator)
    (h : total_pool_weight c = 0) :
    (calculate_all_rewards c).1.map RewardResult.hotkey =
      (participant_weights c).map Prod.fst ∧
    ∀ r ∈ (calculate_all_rewards c).1,
      r.share_of_pool = 0 ∧ r.estimated_masa_reward = 0 := by
  constructor
  · simp only [calculate_all_rewards, List.map_map]
    rfl
  · intro r hr
    simp only [calculate_all_rewards, List.mem_map] at hr
    obtain ⟨t, ht, rfl⟩ := hr
    constructor <;> simp [mkRewardResult, h]

/-- C9 witness: one eligible participant staking zero of both tokens
gives a zero total pool weight, yet the participant appears in the
output. -/
theorem C9_zero_pool_weight_witness :
    total_pool_weight ⟨[("Z", ⟨"Z", "0xZ", 0, 0, 3, 0⟩)], 0, 120⟩ = 0 ∧
    (calculate_all_rewards ⟨[("Z", ⟨"Z", "0xZ", 0, 0, 3, 0⟩)], 0, 120⟩).1.map
        RewardResult.hotkey =
      (participant_weights ⟨[("Z", ⟨"Z", "0xZ", 0, 0, 3, 0⟩)], 0, 120⟩).map
        Prod.fst ∧
    (participant_weights ⟨[("Z", ⟨"Z", "0xZ", 0, 0, 3, 0⟩)], 0, 120⟩).map
        Prod.fst = ["Z"] := by
  have h : total_pool_weight ⟨[("Z", ⟨"Z", "0xZ", 0, 0, 3, 0⟩)], 0, 120⟩ = 0 := by
    simp [total_pool_weight, pool_weight_of, pass_weights,
      calculate_individual_weights, get_masa_stake_multiplier,
      VALID_MASA_STAKE_MONTHS, MAX_ALPHA_STAKE_DAYS]
  refine ⟨h, (C9_zero_pool_weight _ h).1, ?_⟩
  simp [participant_weights, pass_weights, calculate_individual_weights,
    VALID_MASA_STAKE_MONTHS, MAX_ALPHA_STAKE_DAYS]

/-- C10: `calculate_all_rewards` leaves the calculator state — in
particular the participants dict, its keys, stored positions and
insertion order — unchanged (`calculate_individual_weights` is embedded
as a pure function of the state: the Python method only reads `self`). -/
theorem C10_no_mutation (c : RewardCalculator) :
    (calculate_all_rewards c).2 = c ∧
    (calculate_all_rewards c).2.participants = c.participants ∧
    (calculate_all_rewards c).2.launch_date = c.launch_date ∧
    (calculate_all_rewards c).2.program_end_date = c.program_end_date :=
  ⟨rfl, rfl, rfl, rfl⟩

lemma list_sum_map_div {α : Type} (l : List α) (f : α → ℚ) (d : ℚ) :
    (l.map fun x => f x / d).sum = (l.map f).sum / d := by
  induction l with
  | nil => simp
  | cons x xs ih => simp [ih, add_div]

/-- C1: whenever the total pool weight is positive, the shares of pool in
the result list sum to exactly 1 and the estimated rewards sum to exactly
the 15,000,000 pool (in the exact-rational model of `Decimal`; a fortiori
within any decimal rounding epsilon such as 1e-9). -/
theorem C1_shares_and_rewards_sum (c : RewardCalculator)
    (h : 0 < total_pool_weight c) :
    ((calculate_all_rewards c).1.map RewardResult.share_of_pool).sum = 1 ∧
    ((calculate_all_rewards c).1.map RewardResult.estimated_masa_reward).sum =
      TOTAL_REWARD_POOL := by
  have hshare : (calculate_all_rewards c).1.map RewardResult.share_of_pool =
      (participant_weights c).map
        (fun t => t.2.2.total_weight / total_pool_weight c) := by
    simp only [calculate_all_rewards, List.map_map]
    refine List.map_congr_left ?_
    intro t ht
    simp [mkRewardResult, Function.comp, h]
  have hsum : ((participant_weights c).map
      (fun t => t.2.2.total_weight / total_pool_weight c)).sum = 1 := by
    rw [list_sum_map_div]
    have htot : ((participant_weights c).map fun t => t.2.2.total_weight).sum =
        total_pool_weight c := rfl
    rw [htot, div_self (ne_of_gt h)]
  constructor
  · rw [hshare, hsum]
  · have hrew : (calculate_all_rewards c).1.map RewardResult.estimated_masa_reward =
        (participant_weights c).map
          (fun t => TOTAL_REWARD_POOL * (t.2.2.total_weight / total_pool_weight c)) := by
      simp only [calculate_all_rewards, List.map_map]
      refine List.map_congr_left ?_
      intro t ht
      simp [mkRewardResult, Function.comp, h]
    rw [hrew, List.sum_map_mul_left, hsum, mul_one]

/-- Two concrete positions used to instantiate the proved theorems: the
spec's worked scenario (A on launch day, B 45 days in). -/
def posA : ParticipantPosition := ⟨"A", "0xA", 1000, 10000, 6, 0⟩

def posB : ParticipantPosition := ⟨"B", "0xB", 2000, 20000, 9, 45⟩

def calcAB : RewardCalculator := ⟨[("A", posA), ("B", posB)], 0, 120⟩

/-- C1 witness: on the two-participant scenario the pool weight is
positive and the sums come out at 1 and 15,000,000. -/
theorem C1_shares_and_rewards_sum_witness :
    0 < total_pool_weight calcAB ∧
    ((calculate_all_rewards calcAB).1.map RewardResult.share_of_pool).sum = 1 ∧
    ((calculate_all_rewards calcAB).1.map
      RewardResult.estimated_masa_reward).sum = TOTAL_REWARD_POOL := by
  have h : 0 < total_pool_weight calcAB := by
    simp [total_pool_weight, pool_weight_of, pass_weights, calcAB, posA, posB,
      calculate_individual_weights, get_masa_stake_multiplier,
      VALID_MASA_STAKE_MONTHS, MAX_ALPHA_STAKE_DAYS]
    norm_num
  exact ⟨h, (C1_shares_and_rewards_sum calcAB h).1,
    (C1_shares_and_rewards_sum calcAB h).2⟩

lemma pass_weights_map_fst (c : RewardCalculator)
    (l : List (String × ParticipantPosition)) :
    (pass_weights c l).map Prod.fst =
      (l.filter fun q => (calculate_individual_weights c q.2).isSome).map
        Prod.fst := by
  unfold pass_weights
  induction l with
  | nil => rfl
  | cons x xs ih =>
      cases hx : calculate_individual_weights c x.2 with
      | none => simp [List.filterMap_cons, List.filter_cons, hx, ih]
      | some w => simp [List.filterMap_cons, List.filter_cons, hx, ih]

lemma pass_weights_filter (c : RewardCalculator)
    (l : List (String × ParticipantPosition)) :
    pass_weights c
        (l.filter fun q => (calculate_individual_weights c q.2).isSome) =
      pass_weights c l := by
  unfold pass_weights
  induction l with
  | nil => rfl
  | cons x xs ih =>
      cases hx : calculate_individual_weights c x.2 with
      | none => simp [List.filterMap_cons, List.filter_cons, hx, ih]
      | some w => simp [List.filterMap_cons, List.filter_cons, hx, ih]

/-- C2: a position gets a weights record back iff its join date lies in
the program window and its stake months are one of {3, 6, 9, 12};
otherwise the function returns `none` (no exception: the embedding is
total). `calculate_all_rewards` lists exactly the eligible positions, in
stored order, and the total pool weight is the pool weight of the
eligible positions alone. -/
theorem C2_eligibility (c : RewardCalculator) (p : ParticipantPosition) :
    ((calculate_individual_weights c p).isSome ↔
      (c.launch_date ≤ p.join_date ∧ p.join_date ≤ c.program_end_date ∧
       p.masa_stake_months ∈ VALID_MASA_STAKE_MONTHS)) ∧
    (calculate_all_rewards c).1.map RewardResult.hotkey =
      ((c.participants.filter fun q =>
        (calculate_individual_weights c q.2).isSome).map Prod.fst) ∧
    pool_weight_of c (c.participants.filter fun q =>
        (calculate_individual_weights c q.2).isSome) =
      total_pool_weight c := by
  refine ⟨ciw_isSome_iff c p, ?_, ?_⟩
  · have h1 : (calculate_all_rewards c).1.map RewardResult.hotkey =
        (participant_weights c).map Prod.fst := by
      simp only [calculate_all_rewards, List.map_map]
      rfl
    rw [h1]
    exact pass_weights_map_fst c c.participants
  · unfold total_pool_weight pool_weight_of
    rw [pass_weights_filter]

/-- C3: for every eligible position the alpha time multiplier is exactly
`1 - (joinDate - launchDate) / 120 * 0.75` (dates subtract to whole
days); joining on the launch date gives exactly 1 and joining 120 days
after the launch date (the program end date) gives exactly 0.25. -/
theorem C3_alpha_time_multiplier (c : RewardCalculator)
    (p : ParticipantPosition) (w : Weights)
    (h : calculate_individual_weights c p = some w) :
    w.alpha_time_multiplier =
      1 - ((p.join_date - c.launch_date : ℤ) : ℚ) / 120 * 0.75 ∧
    (p.join_date = c.launch_date → w.alpha_time_multiplier = 1) ∧
    (p.join_date = c.launch_date + 120 → w.alpha_time_multiplier = 0.25) := by
  obtain ⟨hatm, -, -, -, -, -, -, -, -⟩ := ciw_dest c p w h
  refine ⟨hatm, ?_, ?_⟩
  · intro hj
    rw [hatm, hj]
    norm_num
  · intro hj
    rw [hatm, hj]
    push_cast
    ring_nf

/-- C3 witness: the concrete launch-day position receives multiplier
exactly 1. -/
theorem C3_alpha_time_multiplier_witness :
    calculate_individual_weights (mkRewardCalculator 0) posA =
      some ⟨13000, 1000, 12000, 1, 1.2, 0⟩ ∧
    (Weights.mk 13000 1000 12000 1 1.2 0).alpha_time_multiplier =
      1 - ((posA.join_date - (mkRewardCalculator 0).launch_date : ℤ) : ℚ) /
        120 * 0.75 ∧
    (Weights.mk 13000 1000 12000 1 1.2 0).alpha_time_multiplier = 1 := by
  have h : calculate_individual_weights (mkRewardCalculator 0) posA =
      some ⟨13000, 1000, 12000, 1, 1.2, 0⟩ := by
    simp [calculate_individual_weights, mkRewardCalculator, calculate_end_date,
      get_masa_stake_multiplier, VALID_MASA_STAKE_MONTHS,
      MAX_ALPHA_STAKE_DAYS, posA]
    norm_num
  refine ⟨h, (C3_alpha_time_multiplier _ _ _ h).1,
    (C3_alpha_time_multiplier _ _ _ h).2.1 ?_⟩
  rfl

lemma pass_weights_total_nonneg (c : RewardCalculator)
    (l : List (String × ParticipantPosition))
    (hwin : c.program_end_date ≤ c.launch_date + MAX_ALPHA_STAKE_DAYS)
    (hnn : ∀ q ∈ l, 0 ≤ q.2.alpha_staked ∧ 0 ≤ q.2.masa_staked) :
    ∀ t ∈ pass_weights c l, 0 ≤ t.2.2.total_weight := by
  intro t ht
  unfold pass_weights at ht
  simp only [List.mem_filterMap] at ht
  obtain ⟨q, hq, hqt⟩ := ht
  rw [Option.map_eq_some'] at hqt
  obtain ⟨w0, hw0, rfl⟩ := hqt
  exact total_weight_nonneg c q.2 w0 hw0 hwin (hnn q hq).1 (hnn q hq).2

lemma forall2_map_map {α β : Type} (l : List α) (f g : α → β)
    (P : β → β → Prop) (h : ∀ x ∈ l, P (f x) (g x)) :
    List.Forall₂ P (l.map f) (l.map g) := by
  induction l with
  | nil => exact List.Forall₂.nil
  | cons x xs ih =>
      exact List.Forall₂.cons (h x (List.mem_cons_self x xs))
        (ih fun y hy => h y (List.mem_cons_of_mem x hy))

/-- C4 counterexample: with a single eligible participant (positive alpha
stake, everything non-negative), raising `alpha_staked` from 1 to 2
leaves `share_of_pool` at exactly 1 in both participant sets, so the
share is not strictly larger in the second set. -/
theorem C4_counterexample :
    (ParticipantPosition.mk "S" "0xS" 1 0 3 0).alpha_staked <
      (ParticipantPosition.mk "S" "0xS" 2 0 3 0).alpha_staked ∧
    (calculate_individual_weights
      ⟨[("S", ⟨"S", "0xS", 1, 0, 3, 0⟩)], 0, 120⟩
      ⟨"S", "0xS", 1, 0, 3, 0⟩).isSome = true ∧
    ((calculate_all_rewards
      ⟨[("S", ⟨"S", "0xS", 1, 0, 3, 0⟩)], 0, 120⟩).1.map
        RewardResult.share_of_pool) = [1] ∧
    ((calculate_all_rewards
      ⟨[("S", ⟨"S", "0xS", 2, 0, 3, 0⟩)], 0, 120⟩).1.map
        RewardResult.share_of_pool) = [1] := by
  refine ⟨by norm_num, by decide, ?_, ?_⟩ <;>
    · simp [calculate_all_rewards, participant_weights, pass_weights,
        total_pool_weight, pool_weight_of, mkRewardResult,
        calculate_individual_weights, get_masa_stake_multiplier,
        VALID_MASA_STAKE_MONTHS, MAX_ALPHA_STAKE_DAYS]
      norm_num

/-- C4 amended: increasing one eligible participant's `alpha_staked` or
`masa_staked` (all other positions, dates and months held fixed, all
amounts non-negative) strictly increases that participant's
`share_of_pool` **provided the other positions carry positive combined
pool weight** (with no other eligible position the share is already 1 and
stays 1, see the counterexample), and never increases any other
participant's share. -/
theorem C4_monotonicity_amended
    (c c' : RewardCalculator)
    (L1 L2 : List (String × ParticipantPosition))
    (hk : String) (p p' : ParticipantPosition)
    (hL : c.participants = L1 ++ (hk, p) :: L2)
    (hL' : c'.participants = L1 ++ (hk, p') :: L2)
    (hlaunch : c'.launch_date = c.launch_date)
    (hend : c'.program_end_date = c.program_end_date)
    (hwin : c.program_end_date ≤ c.launch_date + MAX_ALPHA_STAKE_DAYS)
    (hmonths : p'.masa_stake_months = p.masa_stake_months)
    (hjoin : p'.join_date = p.join_date)
    (hstake : (p.alpha_staked < p'.alpha_staked ∧
               p'.masa_staked = p.masa_staked) ∨
              (p'.alpha_staked = p.alpha_staked ∧
               p.masa_staked < p'.masa_staked))
    (hnonneg : ∀ q ∈ c.participants,
      0 ≤ q.2.alpha_staked ∧ 0 ≤ q.2.masa_staked)
    (helig : (calculate_individual_weights c p).isSome)
    (hrest : 0 < pool_weight_of c L1 + pool_weight_of c L2) :
    ∃ r1 e r2 r1' e' r2',
      (calculate_all_rewards c).1 = r1 ++ e :: r2 ∧
      (calculate_all_rewards c').1 = r1' ++ e' :: r2' ∧
      e.hotkey = hk ∧ e'.hotkey = hk ∧
      e.position = p ∧ e'.position = p' ∧
      e.share_of_pool < e'.share_of_pool ∧
      List.Forall₂ (fun a b => b.share_of_pool ≤ a.share_of_pool) r1 r1' ∧
      List.Forall₂ (fun a b => b.share_of_pool ≤ a.share_of_pool) r2 r2' := by
  obtain ⟨w, hw⟩ := Option.isSome_iff_exists.mp helig
  have helig' : (calculate_individual_weights c' p').isSome := by
    rw [ciw_isSome_iff, hlaunch, hend, hjoin, hmonths]
    exact (ciw_isSome_iff c p).mp helig
  obtain ⟨w', hw'⟩ := Option.isSome_iff_exists.mp helig'
  obtain ⟨hatm, hmm, haw, hmw, htw, -, -, -, hmemv⟩ := ciw_dest c p w hw
  obtain ⟨hatm', hmm', haw', hmw', htw', -, -, -, -⟩ := ciw_dest c' p' w' hw'
  have hatmeq : w'.alpha_time_multiplier = w.alpha_time_multiplier := by
    rw [hatm', hatm, hjoin, hlaunch]
  have hmmeq : w'.masa_multiplier = w.masa_multiplier := by
    rw [hmm', hmm, hmonths]
  have hatm_pos : 0 < w.alpha_time_multiplier :=
    alpha_time_multiplier_pos c p w hw hwin
  have hmm_pos : 0 < w.masa_multiplier := by
    rw [hmm]
    exact masa_multiplier_pos _ hmemv
  have hwlt : w.total_weight < w'.total_weight := by
    rw [htw, htw', haw, haw', hmw, hmw', hatmeq, hmmeq]
    rcases hstake with ⟨hlt, hms⟩ | ⟨has, hlt⟩
    · rw [hms]
      have := mul_lt_mul_of_pos_right hlt hatm_pos
      linarith
    · rw [has]
      have := mul_lt_mul_of_pos_right hlt hmm_pos
      linarith
  have hpmem : (hk, p) ∈ c.participants := by
    rw [hL]
    exact List.mem_append_right L1 (List.mem_cons_self _ L2)
  have hw_nn : 0 ≤ w.total_weight :=
    total_weight_nonneg c p w hw hwin (hnonneg (hk, p) hpmem).1
      (hnonneg (hk, p) hpmem).2
  have hsplit : participant_weights c =
      pass_weights c L1 ++ (hk, p, w) :: pass_weights c L2 := by
    unfold participant_weights pass_weights
    rw [hL, List.filterMap_append, List.filterMap_cons]
    simp [hw]
  have hsplit' : participant_weights c' =
      pass_weights c L1 ++ (hk, p', w') :: pass_weights c L2 := by
    have h0 : participant_weights c' =
        pass_weights c' L1 ++ (hk, p', w') :: pass_weights c' L2 := by
      unfold participant_weights pass_weights
      rw [hL', List.filterMap_append, List.filterMap_cons]
      simp [hw']
    rw [h0, pass_weights_congr c c' L1 hlaunch hend,
      pass_weights_congr c c' L2 hlaunch hend]
  have hT : total_pool_weight c =
      pool_weight_of c L1 + (w.total_weight + pool_weight_of c L2) := by
    show ((pass_weights c c.participants).map fun t => t.2.2.total_weight).sum = _
    rw [show pass_weights c c.participants = participant_weights c from rfl,
      hsplit]
    simp [pool_weight_of, List.sum_append]
  have hT' : total_pool_weight c' =
      pool_weight_of c L1 + (w'.total_weight + pool_weight_of c L2) := by
    show ((pass_weights c' c'.participants).map fun t => t.2.2.total_weight).sum = _
    rw [show pass_weights c' c'.participants = participant_weights c' from rfl,
      hsplit']
    simp [pool_weight_of, List.sum_append]
  have hT_pos : 0 < total_pool_weight c := by
    rw [hT]
    linarith
  have hT'_pos : 0 < total_pool_weight c' := by
    rw [hT']
    linarith
  have hTle : total_pool_weight c ≤ total_pool_weight c' := by
    rw [hT, hT']
    linarith
  have key : w.total_weight * total_pool_weight c' <
      w'.total_weight * total_pool_weight c := by
    rw [hT, hT']
    nlinarith [mul_lt_mul_of_pos_right hwlt hrest]
  have hnnL1 : ∀ q ∈ L1, 0 ≤ q.2.alpha_staked ∧ 0 ≤ q.2.masa_staked := by
    intro q hq
    refine hnonneg q ?_
    rw [hL]
    exact List.mem_append_left _ hq
  have hnnL2 : ∀ q ∈ L2, 0 ≤ q.2.alpha_staked ∧ 0 ≤ q.2.masa_staked := by
    intro q hq
    refine hnonneg q ?_
    rw [hL]
    exact List.mem_append_right _ (List.mem_cons_of_mem _ hq)
  have hother : ∀ (l : List (String × ParticipantPosition))
      (hnn : ∀ q ∈ l, 0 ≤ q.2.alpha_staked ∧ 0 ≤ q.2.masa_staked),
      List.Forall₂ (fun a b => b.share_of_pool ≤ a.share_of_pool)
        ((pass_weights c l).map (mkRewardResult (total_pool_weight c)))
        ((pass_weights c l).map (mkRewardResult (total_pool_weight c'))) := by
    intro l hnn
    refine forall2_map_map _ _ _ _ ?_
    intro t ht
    have htnn : 0 ≤ t.2.2.total_weight :=
      pass_weights_total_nonneg c l hwin hnn t ht
    show (mkRewardResult (total_pool_weight c') t).share_of_pool ≤
      (mkRewardResult (total_pool_weight c) t).share_of_pool
    simp only [mkRewardResult, if_pos hT_pos, if_pos hT'_pos]
    rw [div_le_div_iff₀ hT'_pos hT_pos]
    exact mul_le_mul_of_nonneg_left hTle htnn
  refine ⟨(pass_weights c L1).map (mkRewardResult (total_pool_weight c)),
    mkRewardResult (total_pool_weight c) (hk, p, w),
    (pass_weights c L2).map (mkRewardResult (total_pool_weight c)),
    (pass_weights c L1).map (mkRewardResult (total_pool_weight c')),
    mkRewardResult (total_pool_weight c') (hk, p', w'),
    (pass_weights c L2).map (mkRewardResult (total_pool_weight c')),
    ?_, ?_, rfl, rfl, rfl, rfl, ?_, hother L1 hnnL1, hother L2 hnnL2⟩
  · show (participant_weights c).map (mkRewardResult (total_pool_weight c)) = _
    rw [hsplit, List.map_append, List.map_cons]
  · show (participant_weights c').map (mkRewardResult (total_pool_weight c')) = _
    rw [hsplit', List.map_append, List.map_cons]
  · show (if total_pool_weight c > 0
        then w.total_weight / total_pool_weight c else 0) <
      (if total_pool_weight c' > 0
        then w'.total_weight / total_pool_weight c' else 0)
    rw [if_pos hT_pos, if_pos hT'_pos, div_lt_div_iff₀ hT_pos hT'_pos]
    exact key

/-- Concrete instantiation data for the amended monotonicity claim: a
fixed second participant "B" and the target participant "A" whose alpha
stake grows from 1 to 2. -/
def posOtherB : ParticipantPosition := ⟨"B", "0xB", 1, 0, 3, 0⟩

def posTargetSmall : ParticipantPosition := ⟨"A", "0xA", 1, 0, 3, 0⟩

def posTargetBig : ParticipantPosition := ⟨"A", "0xA", 2, 0, 3, 0⟩

def calcMonoSmall : RewardCalculator :=
  ⟨[("B", posOtherB), ("A", posTargetSmall)], 0, 120⟩

def calcMonoBig : RewardCalculator :=
  ⟨[("B", posOtherB), ("A", posTargetBig)], 0, 120⟩

/-- C4 witness: with participant "B" contributing pool weight 1,
raising "A"'s alpha stake from 1 to 2 strictly raises "A"'s share
(from 1/2 to 2/3) while "B"'s share does not increase. -/
theorem C4_monotonicity_amended_witness :
    0 < pool_weight_of calcMonoSmall [("B", posOtherB)] +
        pool_weight_of calcMonoSmall ([] : List (String × ParticipantPosition)) ∧
    (calculate_individual_weights calcMonoSmall posTargetSmall).isSome = true ∧
    ∃ r1 e r2 r1' e' r2',
      (calculate_all_rewards calcMonoSmall).1 = r1 ++ e :: r2 ∧
      (calculate_all_rewards calcMonoBig).1 = r1' ++ e' :: r2' ∧
      e.hotkey = "A" ∧ e'.hotkey = "A" ∧
      e.position = posTargetSmall ∧ e'.position = posTargetBig ∧
      e.share_of_pool < e'.share_of_pool ∧
      List.Forall₂ (fun a b => b.share_of_pool ≤ a.share_of_pool) r1 r1' ∧
      List.Forall₂ (fun a b => b.share_of_pool ≤ a.share_of_pool) r2 r2' := by
  have hrest : 0 < pool_weight_of calcMonoSmall [("B", posOtherB)] +
      pool_weight_of calcMonoSmall ([] : List (String × ParticipantPosition)) := by
    simp [pool_weight_of, pass_weights, calcMonoSmall, posOtherB,
      calculate_individual_weights, get_masa_stake_multiplier,
      VALID_MASA_STAKE_MONTHS, MAX_ALPHA_STAKE_DAYS]
    norm_num
  refine ⟨hrest, by decide, ?_⟩
  exact C4_monotonicity_amended calcMonoSmall calcMonoBig
    [("B", posOtherB)] [] "A" posTargetSmall posTargetBig
    rfl rfl rfl rfl (by decide)
    rfl rfl
    (Or.inl ⟨by norm_num [posTargetSmall, posTargetBig], rfl⟩)
    (by
      intro q hq
      simp only [calcMonoSmall, List.mem_cons, List.not_mem_nil,
        or_false] at hq
      rcases hq with rfl | rfl <;>
        simp [posOtherB, posTargetSmall])
    (by decide)
    hrest

end SubnetTokenEconomics
